import Mathlib

/-!
# Verification of the `arrematecerto` backend pipeline

A shallow embedding of the backend's core logic: Brazilian-locale number
parsing (`parseNumeroBr`), the CSV record normalizer (`parseImoveisCsv`),
the per-region time-based cache (`getImoveisPorUf`), the query filter of
the `/api/imoveis` route, and the route handler itself.

JavaScript strings are modelled as `List Char` (wrapped in `String` at the
boundaries), JavaScript numbers produced by `Number(...)` as the inductive
`JsNumber` (`nan`, signed infinities, or an exact rational — every decimal
numeric literal denotes a rational, so ℚ is used for the finite values),
absent values (`undefined`) as `Option`, thrown errors as `Except`, and the
mutable cache `Map` as an explicitly threaded association list.  Network
fetches and the external `csv-parse` library are collaborators, passed in
as an oracle producing either parsed rows or an error.
-/

set_option linter.unusedVariables false

namespace ArremateCerto

/-! ## JavaScript string primitives -/

/-- The character class matched by `\s` in JavaScript regular expressions
(which is also the set trimmed by `String.prototype.trim`). -/
def jsIsWs (c : Char) : Bool :=
  let n := c.toNat
  (9 ≤ n && n ≤ 13) || n = 32 || n = 160 || n = 0x1680 ||
    (0x2000 ≤ n && n ≤ 0x200A) || n = 0x2028 || n = 0x2029 ||
    n = 0x202F || n = 0x205F || n = 0x3000 || n = 0xFEFF

/-- JavaScript `String.prototype.trim`: drop whitespace from both ends. -/
def jsTrim (l : List Char) : List Char :=
  ((l.dropWhile jsIsWs).reverse.dropWhile jsIsWs).reverse

/-- One-character case mapping of JavaScript `String.prototype.toUpperCase`,
restricted to the ASCII and Latin-1 ranges that the Latin-1-decoded CSV data
and Portuguese query strings inhabit (characters above U+00FF other than the
special Latin-1 images are left unchanged). -/
def jsUpperChar (c : Char) : List Char :=
  if c = 'ß' then ['S', 'S']
  else if 'a' ≤ c ∧ c ≤ 'z' then [Char.ofNat (c.toNat - 32)]
  else if c = 'µ' then ['Μ']
  else if c = 'ÿ' then ['Ÿ']
  else if 0xE0 ≤ c.toNat ∧ c.toNat ≤ 0xFE ∧ c.toNat ≠ 0xF7 then
    [Char.ofNat (c.toNat - 32)]
  else [c]

/-- JavaScript `String.prototype.toUpperCase` on a character list. -/
def jsUpperList (l : List Char) : List Char :=
  (l.map jsUpperChar).flatten

/-- JavaScript `String.prototype.toUpperCase`. -/
def jsToUpper (s : String) : String :=
  String.mk (jsUpperList s.data)

/-- Does `needle` occur at the head of `hay`? -/
def leadsWith : List Char → List Char → Bool
  | [], _ => true
  | _ :: _, [] => false
  | a :: as, b :: bs => a = b && leadsWith as bs

/-- Does `needle` occur contiguously anywhere in `hay`?  (Substring test.) -/
def listContains : List Char → List Char → Bool
  | [], needle => needle.isEmpty
  | h :: t, needle => leadsWith needle (h :: t) || listContains t needle

/-- JavaScript `hay.includes(needle)`. -/
def jsIncludes (hay needle : String) : Bool :=
  listContains hay.data needle.data

/-- JavaScript `s.replace(',', '.')` — a *string* pattern replaces only the
first occurrence. -/
def replaceFirstComma : List Char → List Char
  | [] => []
  | c :: t => if c = ',' then '.' :: t else c :: replaceFirstComma t

/-- JavaScript `s.replace('.', '')` — removes only the first dot. -/
def removeFirstDot : List Char → List Char
  | [] => []
  | c :: t => if c = '.' then t else c :: removeFirstDot t

/-- JavaScript `a || d` where `a` is a possibly-`undefined` string and the
result is forced to a string: `undefined` and `""` are falsy. -/
def jsOrD (a : Option String) (d : String) : String :=
  match a with
  | some s => if s = "" then d else s
  | none => d

/-- JavaScript `a || b` on possibly-`undefined` strings, still possibly
`undefined` (used for the middle of `a || b || ''` chains). -/
def jsOrO (a b : Option String) : Option String :=
  match a with
  | some s => if s = "" then b else some s
  | none => b

/-! ## JavaScript numbers and `Number(string)`

`Number(...)` applied to a string yields `NaN`, `±Infinity`, or a value
denoted by a decimal/hex/octal/binary numeric literal.  Every such literal
denotes a rational, so finite values are carried exactly in `ℚ`. -/

/-- A JavaScript number as far as this program can observe it. -/
inductive JsNumber where
  | nan : JsNumber
  | posInf : JsNumber
  | negInf : JsNumber
  | fin : ℚ → JsNumber
  deriving DecidableEq

/-- An unsigned numeric literal body: `Infinity` or a finite value. -/
inductive JsUnsigned where
  | inf : JsUnsigned
  | fin : ℚ → JsUnsigned
  deriving DecidableEq

/-- Value of a decimal digit character. -/
def charDigitVal (c : Char) : ℕ := c.toNat - 48

/-- Value of a string of decimal digit characters. -/
def charDigitsVal (l : List Char) : ℕ :=
  l.foldl (fun a c => 10 * a + charDigitVal c) 0

/-- Scale a rational by `10 ^ e` for a signed exponent `e`. -/
def applyExp (q : ℚ) (e : ℤ) : ℚ :=
  if 0 ≤ e then q * 10 ^ e.toNat else q / 10 ^ (-e).toNat

/-- At least one digit, consuming the whole string. -/
def expDigits (l : List Char) : Option ℤ :=
  if l.isEmpty then none
  else if l.all Char.isDigit then some (charDigitsVal l : ℤ) else none

/-- Exponent body after `e`/`E`: optional sign then at least one digit,
consuming the whole rest of the string. -/
def expVal (l : List Char) : Option ℤ :=
  match l with
  | [] => none
  | c :: r =>
      if c = '+' then expDigits r
      else if c = '-' then (expDigits r).map (fun e => -e)
      else expDigits (c :: r)

/-- What may legally follow the digits of a decimal literal: nothing, or an
exponent part. -/
def expTail (l : List Char) : Option ℤ :=
  match l with
  | [] => some 0
  | c :: r => if c = 'e' ∨ c = 'E' then expVal r else none

/-- The `StrDecimalLiteral` grammar of `Number(...)` (without sign):
`digits [. digits] [exp]`, `. digits [exp]`.  Consumes the whole string. -/
def decimalValue (l : List Char) : Option ℚ :=
  let ip := l.takeWhile Char.isDigit
  let rest := l.dropWhile Char.isDigit
  match rest with
  | [] => if ip.isEmpty then none else some (charDigitsVal ip : ℚ)
  | c :: r2 =>
      if c = '.' then
        let fp := r2.takeWhile Char.isDigit
        let r3 := r2.dropWhile Char.isDigit
        if ip.isEmpty && fp.isEmpty then none
        else
          (expTail r3).map
            (applyExp ((charDigitsVal ip : ℚ) + (charDigitsVal fp : ℚ) / 10 ^ fp.length))
      else if c = 'e' ∨ c = 'E' then
        if ip.isEmpty then none
        else (expVal r2).map (applyExp (charDigitsVal ip : ℚ))
      else none

/-- Hexadecimal digit test. -/
def isHexDigitB (c : Char) : Bool :=
  c.isDigit || ('a' ≤ c && c ≤ 'f') || ('A' ≤ c && c ≤ 'F')

/-- Hexadecimal digit value. -/
def hexDigitVal (c : Char) : ℕ :=
  if c.isDigit then c.toNat - 48
  else if 'a' ≤ c ∧ c ≤ 'f' then c.toNat - 87
  else c.toNat - 55

/-- Octal digit test. -/
def isOctDigitB (c : Char) : Bool := '0' ≤ c && c ≤ '7'

/-- Binary digit test. -/
def isBinDigitB (c : Char) : Bool := c = '0' || c = '1'

/-- Value of a digit string in a given radix. -/
def radixVal (radix : ℕ) (dv : Char → ℕ) (l : List Char) : ℕ :=
  l.foldl (fun a c => radix * a + dv c) 0

/-- Parse a full string of digits of one radix (at least one digit). -/
def radixParse (isD : Char → Bool) (radix : ℕ) (dv : Char → ℕ)
    (l : List Char) : Option ℚ :=
  if l.isEmpty then none
  else if l.all isD then some (radixVal radix dv l : ℚ) else none

/-- `NonDecimalIntegerLiteral`: `0x`/`0o`/`0b` literals (never signed). -/
def nonDecimalValue (l : List Char) : Option ℚ :=
  match l with
  | c0 :: c :: rest =>
      if c0 = '0' then
        if c = 'x' ∨ c = 'X' then radixParse isHexDigitB 16 hexDigitVal rest
        else if c = 'o' ∨ c = 'O' then radixParse isOctDigitB 8 charDigitVal rest
        else if c = 'b' ∨ c = 'B' then radixParse isBinDigitB 2 charDigitVal rest
        else none
      else none
  | _ => none

/-- Unsigned literal body: `Infinity` or a decimal literal. -/
def decOrInf (l : List Char) : Option JsUnsigned :=
  if l = ['I', 'n', 'f', 'i', 'n', 'i', 't', 'y'] then some .inf
  else (decimalValue l).map .fin

/-- JavaScript `Number(string)`: trim, empty means `0`, then the numeric
literal grammar with optional sign on decimal literals; anything else is
`NaN`. -/
def jsStringToNumber (l : List Char) : JsNumber :=
  let t := jsTrim l
  if t.isEmpty then .fin 0
  else
    match nonDecimalValue t with
    | some q => .fin q
    | none =>
        match t with
        | [] => .nan
        | c :: r =>
            if c = '+' then
              match decOrInf r with
              | some .inf => .posInf
              | some (.fin q) => .fin q
              | none => .nan
            else if c = '-' then
              match decOrInf r with
              | some .inf => .negInf
              | some (.fin q) => .fin (-q)
              | none => .nan
            else
              match decOrInf (c :: r) with
              | some .inf => .posInf
              | some (.fin q) => .fin q
              | none => .nan

/-- JavaScript `Number(s)` for a `String`. -/
def jsNumberOfString (s : String) : JsNumber :=
  jsStringToNumber s.data

/-! ## The Locale Number Parser (`parseNumeroBr`)

```js
function parseNumeroBr(valorStr) {
  if (!valorStr) return 0;
  let s = String(valorStr).trim();
  s = s.replace(/[R$\s]/g, '');
  s = s.replace(/\./g, '').replace(',', '.');
  const n = Number(s);
  return Number.isNaN(n) ? 0 : n;
}
```
-/

/-- The character class `[R$\s]` stripped by `parseNumeroBr`. -/
def isStrippedChar (c : Char) : Bool :=
  c = 'R' || c = '$' || jsIsWs c

/-- The string normalization pipeline inside `parseNumeroBr`: trim, strip
`[R$\s]`, remove every dot, convert the first comma to a dot. -/
def numeroBrNormalize (str : String) : List Char :=
  replaceFirstComma
    (((jsTrim str.data).filter (fun c => !isStrippedChar c)).filter
      (fun c => !(c = '.')))

/-- `parseNumeroBr`.  The argument is `none` for `undefined`;
`""` and `undefined` are the falsy inputs the guard maps to `0`. -/
def parseNumeroBr : Option String → JsNumber
  | none => .fin 0
  | some str =>
      if str = "" then .fin 0
      else
        match jsStringToNumber (numeroBrNormalize str) with
        | .nan => .fin 0
        | n => n

/-- The inline numeric normalization of the `index.js` revision:
`Number((x || '0').replace('.', '').replace(',', '.'))` — string patterns,
so only the *first* dot and comma are rewritten, and `NaN` is kept. -/
def inlineNumber (v : Option String) : JsNumber :=
  jsStringToNumber (replaceFirstComma (removeFirstDot (jsOrD v "0").data))

/-! ## The Record Normalizer (`parseImoveisCsv`)

The external `csv-parse` call (`columns: true, skip_empty_lines: true,
delimiter: ';'`) turns the CSV text into one key→value object per non-empty
row; those objects are modelled as association lists and taken as the
input.  The repository's own logic is the `records.map((row, idx) => ...)`
body, embedded here verbatim (the `part_000` revision's field fallbacks). -/

/-- A parsed CSV row: header column name → cell text. -/
abbrev Row := List (String × String)

/-- JavaScript property access `row['K']`: the value, or `undefined`. -/
def rowGet : Row → String → Option String
  | [], _ => none
  | (k, v) :: t, key => if k = key then some v else rowGet t key

/-- The canonical normalized property record. -/
structure Imovel where
  id : ℕ
  bruto : Row
  uf : String
  cidade : String
  bairro : String
  logradouro : String
  modalidade : String
  tipo : String
  situacao : String
  valor : JsNumber
  area : JsNumber
  lat : Option ℚ
  lng : Option ℚ
  deriving DecidableEq

/-- The body of the `records.map((row, idx) => {...})` callback. -/
def mkImovel (idx : ℕ) (row : Row) (uf : String) : Imovel where
  id := idx
  bruto := row
  uf := jsOrD (rowGet row "UF") uf
  cidade := jsOrD (jsOrO (rowGet row "MUNICIPIO") (rowGet row "CIDADE")) ""
  bairro := jsOrD (rowGet row "BAIRRO") ""
  logradouro := jsOrD (jsOrO (rowGet row "ENDERECO") (rowGet row "LOGRADOURO")) ""
  modalidade := jsOrD (rowGet row "MODALIDADE") ""
  tipo := jsOrD (jsOrO (rowGet row "TIPO_IMOVEL") (rowGet row "TIPO")) ""
  situacao := jsOrD (rowGet row "SITUACAO") ""
  valor := parseNumeroBr (some (jsOrD (jsOrO (rowGet row "VALOR") (rowGet row "VALOR_AVALIACAO")) ""))
  area := parseNumeroBr (some (jsOrD (jsOrO (rowGet row "AREA_TOTAL") (rowGet row "AREA")) ""))
  lat := none
  lng := none

/-- `records.map((row, idx) => ...)`, carrying the running index. -/
def imoveisFromRows (uf : String) : ℕ → List Row → List Imovel
  | _, [] => []
  | n, row :: rest => mkImovel n row uf :: imoveisFromRows uf (n + 1) rest

/-- `parseImoveisCsv`, applied to the already-parsed rows. -/
def parseImoveisCsv (rows : List Row) (uf : String) : List Imovel :=
  imoveisFromRows uf 0 rows

/-! ## The CSV Ingestion Client URL -/

/-- The download URL built by `fetchCsvCaixa`: the region code is
uppercased and substituted into a fixed template. -/
def urlCaixa (uf : String) : String :=
  "https://venda-imoveis.caixa.gov.br/listaweb/Lista_imoveis_" ++
    jsToUpper uf ++ ".csv"

/-! ## The Region Cache (`getImoveisPorUf`) -/

/-- An error thrown by the ingestion fetch (an axios error): the upstream
HTTP status when the server answered (`err.response?.status`), and the
error message (`err.message`). -/
structure JsErr where
  status? : Option ℕ
  message : String
  deriving DecidableEq

/-- One cache entry: `{ data, timestamp }`. -/
structure CacheEntry where
  data : List Imovel
  timestamp : ℤ
  deriving DecidableEq

/-- The `cacheImoveis` map, as an insertion-ordered association list. -/
abbrev Cache := List (String × CacheEntry)

/-- `cacheImoveis.get(uf)`. -/
def lookupCache : Cache → String → Option CacheEntry
  | [], _ => none
  | (k, v) :: t, uf => if k = uf then some v else lookupCache t uf

/-- `cacheImoveis.set(uf, e)`: replace in place, or append. -/
def insertCache : Cache → String → CacheEntry → Cache
  | [], uf, e => [(uf, e)]
  | (k, v) :: t, uf, e =>
      if k = uf then (uf, e) :: t else (k, v) :: insertCache t uf e

/-- `CACHE_MS = 10 * 60 * 1000` (ten minutes). -/
def CACHE_MS : ℤ := 10 * 60 * 1000

/-- A fetch-and-parse oracle standing for `fetchCsvCaixa` composed with the
`csv-parse` call: for a region code, either the parsed rows or a thrown
error. -/
abbrev FetchRows := String → Except JsErr (List Row)

/-- The cache-miss path of `getImoveisPorUf`: fetch, normalize, store with
the current timestamp, return; a thrown fetch error propagates and leaves
the cache untouched. -/
def refreshUf (fetch : FetchRows) (now : ℤ) (cache : Cache) (uf : String) :
    Except JsErr (List Imovel) × Cache :=
  match fetch uf with
  | .error e => (.error e, cache)
  | .ok rows =>
      let imoveis := parseImoveisCsv rows uf
      (.ok imoveis, insertCache cache uf ⟨imoveis, now⟩)

/-- `getImoveisPorUf`: serve the cached list when the entry's age is
strictly under `CACHE_MS`, otherwise refresh. -/
def getImoveisPorUf (fetch : FetchRows) (now : ℤ) (cache : Cache)
    (uf : String) : Except JsErr (List Imovel) × Cache :=
  match lookupCache cache uf with
  | some cached =>
      if now - cached.timestamp < CACHE_MS then (.ok cached.data, cache)
      else refreshUf fetch now cache uf
  | none => refreshUf fetch now cache uf

/-! ## The Query Filter and the `/api/imoveis` route -/

/-- JavaScript `x >= y`: false whenever either side is `NaN`. -/
def jsGeB : JsNumber → JsNumber → Bool
  | .nan, _ => false
  | _, .nan => false
  | .posInf, _ => true
  | _, .posInf => false
  | .negInf, .negInf => true
  | .negInf, _ => false
  | .fin _, .negInf => true
  | .fin a, .fin b => decide (b ≤ a)

/-- JavaScript `x <= y`: false whenever either side is `NaN`. -/
def jsLeB : JsNumber → JsNumber → Bool
  | .nan, _ => false
  | _, .nan => false
  | .negInf, _ => true
  | _, .negInf => false
  | .posInf, .posInf => true
  | .posInf, _ => false
  | .fin _, .posInf => true
  | .fin a, .fin b => decide (a ≤ b)

/-- The three sequential filters of the route body.  Each query parameter
is applied only when truthy (present and non-empty). -/
def filterImoveis (imoveis : List Imovel)
    (modalidade minValor maxValor : Option String) : List Imovel :=
  let im1 :=
    match modalidade with
    | some m =>
        if m = "" then imoveis
        else
          imoveis.filter fun i =>
            jsIncludes (jsToUpper (jsOrD (some i.modalidade) "")) (jsToUpper m)
    | none => imoveis
  let im2 :=
    match minValor with
    | some mv =>
        if mv = "" then im1
        else im1.filter fun i => jsGeB i.valor (jsNumberOfString mv)
    | none => im1
  match maxValor with
  | some mx =>
      if mx = "" then im2
      else im2.filter fun i => jsLeB i.valor (jsNumberOfString mx)
  | none => im2

/-- The query parameters of `GET /api/imoveis`. -/
structure Query where
  uf : Option String
  modalidade : Option String
  minValor : Option String
  maxValor : Option String

/-- A response body: a JSON record array or a JSON error object. -/
inductive RespBody where
  | imoveisJson : List Imovel → RespBody
  | errorJson : String → RespBody
  deriving DecidableEq

/-- An HTTP response. -/
structure HttpResponse where
  status : ℕ
  body : RespBody
  deriving DecidableEq

/-- The catch-block message of the route: the upstream HTTP status when the
error carries a truthy one, the transport message otherwise. -/
def caixaErrMsg (e : JsErr) : String :=
  match e.status? with
  | some s =>
      if s = 0 then "Erro ao carregar imóveis da Caixa: " ++ e.message
      else "Erro ao carregar imóveis da Caixa (HTTP Caixa " ++ toString s ++ ")"
  | none => "Erro ao carregar imóveis da Caixa: " ++ e.message

/-- The `GET /api/imoveis` handler: 400 when `uf` is falsy; otherwise
resolve through the cache, filter, and answer 200 — or 500 with the
catch-block message when the pipeline throws. -/
def apiImoveisHandler (fetch : FetchRows) (now : ℤ) (cache : Cache)
    (q : Query) : HttpResponse × Cache :=
  match q.uf with
  | none => (⟨400, .errorJson "Parâmetro uf é obrigatório"⟩, cache)
  | some u =>
      if u = "" then (⟨400, .errorJson "Parâmetro uf é obrigatório"⟩, cache)
      else
        match getImoveisPorUf fetch now cache u with
        | (.error e, cache') => (⟨500, .errorJson (caixaErrMsg e)⟩, cache')
        | (.ok imoveis, cache') =>
            (⟨200, .imoveisJson (filterImoveis imoveis q.modalidade q.minValor q.maxValor)⟩,
              cache')

/-! ## Specification-side definitions

Data-driven restatements of the contracts, against which the embedded code
is compared. -/

/-- Spec §4.3/§9: a canonical field is "the first non-empty match among a
fixed ordered list of acceptable source-column-name variants", or `""`. -/
def resolveField (row : Row) : List String → String
  | [] => ""
  | k :: ks =>
      match rowGet row k with
      | some v => if v = "" then resolveField row ks else v
      | none => resolveField row ks

/-- Spec §4.5: the conjunction of the three optional predicates, as a
single pass/fail test on one record (an absent or empty parameter imposes
no constraint). -/
def passesFilters (modalidade minValor maxValor : Option String)
    (i : Imovel) : Bool :=
  (match modalidade with
   | some m =>
       if m = "" then true
       else jsIncludes (jsToUpper (jsOrD (some i.modalidade) "")) (jsToUpper m)
   | none => true) &&
  (match minValor with
   | some mv => if mv = "" then true else jsGeB i.valor (jsNumberOfString mv)
   | none => true) &&
  (match maxValor with
   | some mx => if mx = "" then true else jsLeB i.valor (jsNumberOfString mx)
   | none => true)

/-- The ten decimal digit characters. -/
def digitChars : List Char :=
  ['0', '1', '2', '3', '4', '5', '6', '7', '8', '9']

/-- The integer part of a Brazilian-formatted number: digit groups joined
by thousands-separator dots. -/
def brIntPart : List (List Char) → List Char
  | [] => []
  | [g] => g
  | g :: gs => g ++ '.' :: brIntPart gs

/-- A Brazilian-formatted numeric string: optional `R$ ` currency marker,
dot-separated digit groups, optional comma followed by decimal digits. -/
def brString (cur : Bool) (groups : List (List Char))
    (frac : Option (List Char)) : List Char :=
  (if cur then ['R', '$', ' '] else []) ++ brIntPart groups ++
    (match frac with
     | some f => ',' :: f
     | none => [])

/-- The number a Brazilian-formatted string denotes: the concatenated
integer digits, plus the decimal digits scaled down by their count. -/
def brValue (groups : List (List Char)) (frac : Option (List Char)) : ℚ :=
  (charDigitsVal groups.flatten : ℚ) +
    (match frac with
     | some f => (charDigitsVal f : ℚ) / 10 ^ f.length
     | none => 0)

/-- Is a JavaScript number a non-negative value?  (`NaN` is not.) -/
def JsNumber.isNonnegB : JsNumber → Bool
  | .nan => false
  | .posInf => true
  | .negInf => false
  | .fin q => decide (0 ≤ q)

/-- A region's cache entry is absent or at least `CACHE_MS` old — exactly
the condition under which `getImoveisPorUf` refreshes. -/
def cacheStale (cache : Cache) (uf : String) (now : ℤ) : Prop :=
  ∀ c, lookupCache cache uf = some c → ¬ now - c.timestamp < CACHE_MS

/-- One optional-parameter stage of the route filter, as applied by
`filterImoveis`. -/
def filterStage (o : Option String) (test : String → Imovel → Bool)
    (l : List Imovel) : List Imovel :=
  match o with
  | some s => if s = "" then l else l.filter (test s)
  | none => l

/-- The pass/fail test the stage amounts to on one record. -/
def stagePass (o : Option String) (test : String → Imovel → Bool)
    (i : Imovel) : Bool :=
  match o with
  | some s => if s = "" then true else test s i
  | none => true

/-- A record in auction modality, for the concrete matching facts. -/
def imovelLeilao : Imovel :=
  ⟨0, [], "SP", "", "", "", "Leilão Extrajudicial", "", "", .fin 0, .fin 0,
    none, none⟩

/-- A direct-sale record, for the concrete matching facts. -/
def imovelVendaDireta : Imovel :=
  ⟨1, [], "SP", "", "", "", "Venda Direta", "", "", .fin 0, .fin 0,
    none, none⟩

/-! ## Lemmas about the cache -/

theorem lookupCache_insertCache_self (cache : Cache) (uf : String)
    (e : CacheEntry) : lookupCache (insertCache cache uf e) uf = some e := by
  induction cache with
  | nil => simp [insertCache, lookupCache]
  | cons kv t ih =>
      obtain ⟨k, v⟩ := kv
      by_cases hk : k = uf <;> simp [insertCache, lookupCache, hk, ih]

theorem lookupCache_insertCache_ne (cache : Cache) (uf k : String)
    (e : CacheEntry) (hk : k ≠ uf) :
    lookupCache (insertCache cache uf e) k = lookupCache cache k := by
  induction cache with
  | nil => simp [insertCache, lookupCache, Ne.symm hk]
  | cons kv t ih =>
      obtain ⟨k', v⟩ := kv
      by_cases hk' : k' = uf
      · subst hk'
        simp [insertCache, lookupCache, Ne.symm hk]
      · by_cases hkk : k' = k <;>
          simp [insertCache, lookupCache, hk', hkk, hk, ih]

theorem getImoveisPorUf_stale (fetch : FetchRows) (now : ℤ) (cache : Cache)
    (uf : String) (hstale : cacheStale cache uf now) :
    getImoveisPorUf fetch now cache uf = refreshUf fetch now cache uf := by
  unfold getImoveisPorUf
  cases hlk : lookupCache cache uf with
  | none => rfl
  | some c =>
      have := hstale c hlk
      simp [this]

/-! ## C1: the Region Cache contract -/

/-- C1.  For every region code,`getImoveisPorUf` serves a cached entry
younger than ten minutes as-is, without touching the ingestion oracle or
the cache; otherwise it performs one fetch+parse cycle, stores the
resulting list under the region with the current timestamp (overwriting
any prior entry wholesale, leaving other keys alone), and returns it. -/
theorem getImoveisPorUf_cache_contract (fetch : FetchRows) (now : ℤ)
    (cache : Cache) (uf : String) :
    (∀ c, lookupCache cache uf = some c → now - c.timestamp < CACHE_MS →
      getImoveisPorUf fetch now cache uf = (.ok c.data, cache)) ∧
    (cacheStale cache uf now →
      ∀ rows, fetch uf = .ok rows →
        getImoveisPorUf fetch now cache uf =
          (.ok (parseImoveisCsv rows uf),
            insertCache cache uf ⟨parseImoveisCsv rows uf, now⟩) ∧
        lookupCache (insertCache cache uf ⟨parseImoveisCsv rows uf, now⟩) uf =
          some ⟨parseImoveisCsv rows uf, now⟩ ∧
        ∀ k, k ≠ uf →
          lookupCache (insertCache cache uf ⟨parseImoveisCsv rows uf, now⟩) k =
            lookupCache cache k) := by
  constructor
  · intro c hlk hfresh
    unfold getImoveisPorUf
    simp [hlk, hfresh]
  · intro hstale rows hrows
    refine ⟨?_, lookupCache_insertCache_self _ _ _,
      fun k hk => lookupCache_insertCache_ne _ _ _ _ hk⟩
    rw [getImoveisPorUf_stale fetch now cache uf hstale]
    unfold refreshUf
    simp [hrows]

/-- Witness for C1: a fresh hit is served from the cache, and a miss on the
empty cache fetches, stores and returns the parsed rows. -/
theorem getImoveisPorUf_cache_contract_witness :
    getImoveisPorUf (fun _ => .ok []) 1 [("SP", ⟨[], 0⟩)] "SP" =
      (.ok [], [("SP", ⟨[], 0⟩)]) ∧
    getImoveisPorUf (fun _ => .ok []) 1 [] "SP" =
      (.ok [], [("SP", ⟨[], 1⟩)]) := by
  constructor
  · exact (getImoveisPorUf_cache_contract (fun _ => .ok []) 1
      [("SP", ⟨[], 0⟩)] "SP").1 ⟨[], 0⟩ rfl (by decide)
  · exact ((getImoveisPorUf_cache_contract (fun _ => .ok []) 1 [] "SP").2
      (fun c hc => Option.noConfusion hc) [] rfl).1

/-! ## C4: fetch failure leaves the cache untouched -/

/-- C4.  When the entry for a region is absent or expired and the ingestion
fetch fails, the error propagates out of `getImoveisPorUf` and the returned
cache is exactly the input cache: nothing is stored and no prior entry is
modified. -/
theorem getImoveisPorUf_error_atomic (fetch : FetchRows) (now : ℤ)
    (cache : Cache) (uf : String) (e : JsErr)
    (hstale : cacheStale cache uf now) (hfail : fetch uf = .error e) :
    getImoveisPorUf fetch now cache uf = (.error e, cache) := by
  rw [getImoveisPorUf_stale fetch now cache uf hstale]
  unfold refreshUf
  simp [hfail]

/-- Witness for C4: a 503 fetch failure on an expired entry propagates and
leaves the prior entry in place. -/
theorem getImoveisPorUf_error_atomic_witness :
    getImoveisPorUf (fun _ => .error ⟨some 503, "Request failed"⟩) CACHE_MS
        [("SP", ⟨[], 0⟩)] "SP" =
      (.error ⟨some 503, "Request failed"⟩, [("SP", ⟨[], 0⟩)]) := by
  refine getImoveisPorUf_error_atomic _ CACHE_MS [("SP", ⟨[], 0⟩)] "SP"
    ⟨some 503, "Request failed"⟩ ?_ rfl
  intro c hc
  have hc' : c = ⟨[], 0⟩ := by
    have : some (⟨[], 0⟩ : CacheEntry) = some c := hc
    exact (Option.some.injEq _ _ ▸ this).symm
  subst hc'
  decide

/-! ## C10: the cache key is not case-canonicalized -/

/-- C10.  For two distinct region-code spellings that uppercase to the same
code, the ingestion URL is identical, yet the cache keeps independent
entries: a fresh entry under one spelling is invisible to the other, a
request under the other takes the refresh path (its own fetch), and after
that refresh both entries coexist. -/
theorem cache_case_sensitive (u1 u2 : String) (d : List Imovel) (ts now : ℤ)
    (fetch : FetchRows) (hne : u1 ≠ u2)
    (hup : jsToUpper u1 = jsToUpper u2) :
    urlCaixa u1 = urlCaixa u2 ∧
    lookupCache [(u1, ⟨d, ts⟩)] u2 = none ∧
    getImoveisPorUf fetch now [(u1, ⟨d, ts⟩)] u2 =
      refreshUf fetch now [(u1, ⟨d, ts⟩)] u2 ∧
    ∀ rows, fetch u2 = .ok rows →
      getImoveisPorUf fetch now [(u1, ⟨d, ts⟩)] u2 =
        (.ok (parseImoveisCsv rows u2),
          insertCache [(u1, ⟨d, ts⟩)] u2 ⟨parseImoveisCsv rows u2, now⟩) ∧
      lookupCache
          (insertCache [(u1, ⟨d, ts⟩)] u2 ⟨parseImoveisCsv rows u2, now⟩) u1 =
        some ⟨d, ts⟩ := by
  have hlk : lookupCache [(u1, ⟨d, ts⟩)] u2 = none := by
    simp [lookupCache, hne]
  have hstale : cacheStale [(u1, ⟨d, ts⟩)] u2 now := by
    intro c hc
    rw [hlk] at hc
    exact Option.noConfusion hc
  refine ⟨by simp [urlCaixa, hup], hlk,
    getImoveisPorUf_stale fetch now _ u2 hstale, ?_⟩
  intro rows hrows
  constructor
  · rw [getImoveisPorUf_stale fetch now _ u2 hstale]
    unfold refreshUf
    simp [hrows]
  · rw [lookupCache_insertCache_ne _ _ _ _ hne]
    simp [lookupCache]

/-- Witness for C10 at the spellings `"sp"` and `"SP"`. -/
theorem cache_case_sensitive_witness :
    urlCaixa "sp" = urlCaixa "SP" ∧
    getImoveisPorUf (fun _ => .ok []) 0 [("sp", ⟨[], 0⟩)] "SP" =
      (.ok [], [("sp", ⟨[], 0⟩), ("SP", ⟨[], 0⟩)]) := by
  have h := cache_case_sensitive "sp" "SP" [] 0 0 (fun _ => .ok [])
    (by decide) (by decide)
  exact ⟨h.1, (h.2.2.2 [] rfl).1⟩

/-! ## C6: route error handling -/

/-- C6.  A request without a (truthy) `uf` is answered 400 with a JSON
error body, with the cache returned untouched and the ingestion oracle
never consulted (the answer is the same for every oracle); a request whose
upstream fetch fails with a truthy HTTP status `s` is answered 500 with a
JSON error body naming `s`. -/
theorem apiImoveis_errors (fetch : FetchRows) (now : ℤ) (cache : Cache) :
    (∀ q : Query, q.uf = none ∨ q.uf = some "" →
      apiImoveisHandler fetch now cache q =
        (⟨400, .errorJson "Parâmetro uf é obrigatório"⟩, cache)) ∧
    (∀ (q : Query) (fetch' : FetchRows), q.uf = none ∨ q.uf = some "" →
      apiImoveisHandler fetch now cache q =
        apiImoveisHandler fetch' now cache q) ∧
    (∀ (q : Query) (u : String) (s : ℕ) (msg : String),
      q.uf = some u → u ≠ "" → cacheStale cache u now →
      fetch u = .error ⟨some s, msg⟩ → s ≠ 0 →
      apiImoveisHandler fetch now cache q =
        (⟨500, .errorJson ("Erro ao carregar imóveis da Caixa (HTTP Caixa " ++
          toString s ++ ")")⟩, cache)) := by
  have h400 : ∀ (f : FetchRows) (q : Query), q.uf = none ∨ q.uf = some "" →
      apiImoveisHandler f now cache q =
        (⟨400, .errorJson "Parâmetro uf é obrigatório"⟩, cache) := by
    intro f q hq
    rcases hq with hq | hq <;> simp [apiImoveisHandler, hq]
  refine ⟨h400 fetch, fun q f' hq => (h400 fetch q hq).trans (h400 f' q hq).symm,
    ?_⟩
  intro q u s msg hqu hu hstale hfail hs
  have hget : getImoveisPorUf fetch now cache u =
      (.error ⟨some s, msg⟩, cache) := by
    rw [getImoveisPorUf_stale fetch now cache u hstale]
    unfold refreshUf
    simp [hfail]
  simp [apiImoveisHandler, hqu, hu, hget, caixaErrMsg, hs]

/-- Witness for C6: a `uf`-less request is answered 400, and a simulated
upstream 503 is answered 500 with a message naming 503. -/
theorem apiImoveis_errors_witness :
    apiImoveisHandler (fun _ => .ok []) 0 [] ⟨none, none, none, none⟩ =
      (⟨400, .errorJson "Parâmetro uf é obrigatório"⟩, []) ∧
    apiImoveisHandler (fun _ => .error ⟨some 503, "Request failed"⟩) 0 []
        ⟨some "SP", none, none, none⟩ =
      (⟨500, .errorJson "Erro ao carregar imóveis da Caixa (HTTP Caixa 503)"⟩,
        []) := by
  constructor
  · exact (apiImoveis_errors (fun _ => .ok []) 0 []).1 ⟨none, none, none, none⟩
      (Or.inl rfl)
  · exact (apiImoveis_errors (fun _ => .error ⟨some 503, "Request failed"⟩)
      0 []).2.2 ⟨some "SP", none, none, none⟩ "SP" 503 "Request failed" rfl
      (by decide) (fun c hc => Option.noConfusion hc) rfl (by decide)

/-! ## C3: the Query Filter -/

theorem filterStage_eq_filter (o : Option String)
    (test : String → Imovel → Bool) (l : List Imovel) :
    filterStage o test l = l.filter (stagePass o test) := by
  rcases o with _ | s
  · exact ((List.filter_congr fun x _ => rfl).trans (List.filter_true l)).symm
  · by_cases hs : s = ""
    · subst hs
      exact ((List.filter_congr fun x _ => rfl).trans (List.filter_true l)).symm
    · simp only [filterStage, if_neg hs]
      exact List.filter_congr fun x _ => by simp [stagePass, hs]

theorem filterImoveis_eq_filter (imoveis : List Imovel)
    (m mn mx : Option String) :
    filterImoveis imoveis m mn mx =
      imoveis.filter (passesFilters m mn mx) := by
  have hshape : filterImoveis imoveis m mn mx =
      filterStage mx (fun s i => jsLeB i.valor (jsNumberOfString s))
        (filterStage mn (fun s i => jsGeB i.valor (jsNumberOfString s))
          (filterStage m
            (fun s i =>
              jsIncludes (jsToUpper (jsOrD (some i.modalidade) ""))
                (jsToUpper s))
            imoveis)) := by
    rcases m with _ | m <;> rcases mn with _ | mn <;> rcases mx with _ | mx <;>
      rfl
  rw [hshape, filterStage_eq_filter, filterStage_eq_filter,
    filterStage_eq_filter, List.filter_filter, List.filter_filter]
  refine List.filter_congr fun i _ => ?_
  rcases m with _ | m <;> rcases mn with _ | mn <;> rcases mx with _ | mx <;>
    simp only [stagePass, passesFilters] <;> (try split_ifs) <;>
    simp_all [Bool.and_comm, Bool.and_left_comm, Bool.and_assoc]

/-- C3.  The route's filter section returns exactly the subsequence of
records passing every supplied predicate, in original order; absent
predicates impose no constraint (no predicates: the list is unchanged);
on finite values the bounds are the inclusive rational orderings; and the
modalidade test is a case-insensitive substring match, so `"leilão"`
selects a `"Leilão Extrajudicial"` record but not a `"Venda Direta"`
one. -/
theorem filterImoveis_contract :
    (∀ (imoveis : List Imovel) (m mn mx : Option String),
      filterImoveis imoveis m mn mx =
        imoveis.filter (passesFilters m mn mx)) ∧
    (∀ (imoveis : List Imovel) (m mn mx : Option String),
      (filterImoveis imoveis m mn mx).Sublist imoveis) ∧
    (∀ (imoveis : List Imovel) (m mn mx : Option String) (i : Imovel),
      i ∈ filterImoveis imoveis m mn mx ↔
        i ∈ imoveis ∧ passesFilters m mn mx i = true) ∧
    (∀ imoveis : List Imovel, filterImoveis imoveis none none none = imoveis) ∧
    (∀ a b : ℚ, jsGeB (.fin a) (.fin b) = decide (b ≤ a)) ∧
    (∀ a b : ℚ, jsLeB (.fin a) (.fin b) = decide (a ≤ b)) ∧
    filterImoveis [imovelLeilao, imovelVendaDireta] (some "leilão") none none =
      [imovelLeilao] := by
  refine ⟨filterImoveis_eq_filter, ?_, ?_, ?_, fun a b => rfl, fun a b => rfl,
    by decide⟩
  · intro imoveis m mn mx
    rw [filterImoveis_eq_filter]
    exact List.filter_sublist imoveis
  · intro imoveis m mn mx i
    rw [filterImoveis_eq_filter]
    exact List.mem_filter
  · intro imoveis
    rfl

/-! ## C5: the Record Normalizer -/

theorem imoveisFromRows_length (uf : String) (n : ℕ) (rows : List Row) :
    (imoveisFromRows uf n rows).length = rows.length := by
  induction rows generalizing n with
  | nil => rfl
  | cons r t ih => simp [imoveisFromRows, ih]

theorem imoveisFromRows_get (uf : String) (n : ℕ) (rows : List Row) (i : ℕ)
    (hi : i < (imoveisFromRows uf n rows).length) (hr : i < rows.length) :
    (imoveisFromRows uf n rows).get ⟨i, hi⟩ =
      mkImovel (n + i) (rows.get ⟨i, hr⟩) uf := by
  induction rows generalizing n i with
  | nil => exact absurd hr (by simp)
  | cons r t ih =>
      cases i with
      | zero => rfl
      | succ j =>
          have hj : j < (imoveisFromRows uf (n + 1) t).length := by
            simpa [imoveisFromRows] using hi
          have hjr : j < t.length := by simpa using hr
          have := ih (n + 1) j hj hjr
          simpa [imoveisFromRows, Nat.add_assoc, Nat.add_comm 1 j] using this

theorem resolveField_one (row : Row) (k : String) :
    resolveField row [k] = jsOrD (rowGet row k) "" := by
  cases h : rowGet row k with
  | none => simp [resolveField, jsOrD, h]
  | some v => by_cases hv : v = "" <;> simp [resolveField, jsOrD, h, hv]

theorem resolveField_two (row : Row) (k₁ k₂ : String) :
    resolveField row [k₁, k₂] = jsOrD (jsOrO (rowGet row k₁) (rowGet row k₂)) "" := by
  cases h₁ : rowGet row k₁ with
  | none =>
      simp only [resolveField, jsOrO, h₁]
      cases h₂ : rowGet row k₂ <;> simp [jsOrD, h₂]
  | some v =>
      by_cases hv : v = ""
      · simp only [resolveField, jsOrO, h₁, hv, if_pos rfl]
        cases h₂ : rowGet row k₂ <;> simp [jsOrD, h₂]
      · simp [resolveField, jsOrO, jsOrD, h₁, hv]

/-- C5.  The normalizer yields one record per parsed row, in row order,
with `id` the zero-based row index, `bruto` the source row verbatim, each
canonical text field resolved as the first non-empty value among its fixed
candidate column list (empty string when none matches; the `uf` field
falls back to the requested region code instead), the numeric fields
routed through `parseNumeroBr`, and no geocoding. -/
theorem parseImoveisCsv_normalizer (rows : List Row) (uf : String) :
    (parseImoveisCsv rows uf).length = rows.length ∧
    ∀ i (hi : i < (parseImoveisCsv rows uf).length) (hr : i < rows.length),
      ((parseImoveisCsv rows uf).get ⟨i, hi⟩).id = i ∧
      ((parseImoveisCsv rows uf).get ⟨i, hi⟩).bruto = rows.get ⟨i, hr⟩ ∧
      ((parseImoveisCsv rows uf).get ⟨i, hi⟩).uf =
        jsOrD (rowGet (rows.get ⟨i, hr⟩) "UF") uf ∧
      ((parseImoveisCsv rows uf).get ⟨i, hi⟩).cidade =
        resolveField (rows.get ⟨i, hr⟩) ["MUNICIPIO", "CIDADE"] ∧
      ((parseImoveisCsv rows uf).get ⟨i, hi⟩).bairro =
        resolveField (rows.get ⟨i, hr⟩) ["BAIRRO"] ∧
      ((parseImoveisCsv rows uf).get ⟨i, hi⟩).logradouro =
        resolveField (rows.get ⟨i, hr⟩) ["ENDERECO", "LOGRADOURO"] ∧
      ((parseImoveisCsv rows uf).get ⟨i, hi⟩).modalidade =
        resolveField (rows.get ⟨i, hr⟩) ["MODALIDADE"] ∧
      ((parseImoveisCsv rows uf).get ⟨i, hi⟩).tipo =
        resolveField (rows.get ⟨i, hr⟩) ["TIPO_IMOVEL", "TIPO"] ∧
      ((parseImoveisCsv rows uf).get ⟨i, hi⟩).situacao =
        resolveField (rows.get ⟨i, hr⟩) ["SITUACAO"] ∧
      ((parseImoveisCsv rows uf).get ⟨i, hi⟩).valor =
        parseNumeroBr
          (some (resolveField (rows.get ⟨i, hr⟩) ["VALOR", "VALOR_AVALIACAO"])) ∧
      ((parseImoveisCsv rows uf).get ⟨i, hi⟩).area =
        parseNumeroBr
          (some (resolveField (rows.get ⟨i, hr⟩) ["AREA_TOTAL", "AREA"])) ∧
      ((parseImoveisCsv rows uf).get ⟨i, hi⟩).lat = none ∧
      ((parseImoveisCsv rows uf).get ⟨i, hi⟩).lng = none := by
  refine ⟨imoveisFromRows_length uf 0 rows, ?_⟩
  intro i hi hr
  have hget : (parseImoveisCsv rows uf).get ⟨i, hi⟩ =
      mkImovel (0 + i) (rows.get ⟨i, hr⟩) uf :=
    imoveisFromRows_get uf 0 rows i hi hr
  rw [hget]
  simp [mkImovel, resolveField_one, resolveField_two]

/-- Witness for C5 on a one-row fixture. -/
theorem parseImoveisCsv_normalizer_witness :
    (parseImoveisCsv [[("MUNICIPIO", "Niterói"), ("VALOR", "R$ 900")]]
      "SP").length = 1 ∧
    ((parseImoveisCsv [[("MUNICIPIO", "Niterói"), ("VALOR", "R$ 900")]]
        "SP").get ⟨0, by decide⟩).cidade = "Niterói" ∧
    ((parseImoveisCsv [[("MUNICIPIO", "Niterói"), ("VALOR", "R$ 900")]]
        "SP").get ⟨0, by decide⟩).valor = .fin 900 := by
  have h := parseImoveisCsv_normalizer
    [[("MUNICIPIO", "Niterói"), ("VALOR", "R$ 900")]] "SP"
  have h2 := h.2 0 (by decide) (by decide)
  exact ⟨h.1, h2.2.2.2.1.trans (by decide),
    h2.2.2.2.2.2.2.2.2.2.1.trans (by decide)⟩

/-! ## C8: the `uf` field is passed through verbatim, not uppercased -/

/-- Counterexample to C8 as stated: requesting region `"sp"` for a row
without a `UF` column yields a record whose `uf` field is the lowercase
`"sp"`. -/
theorem uf_not_uppercased_counterexample :
    (parseImoveisCsv [[]] "sp").map Imovel.uf = ["sp"] ∧
      jsToUpper "sp" ≠ "sp" := by decide

/-- Membership in the normalizer's output comes from some source row. -/
theorem mem_imoveisFromRows (uf : String) (n : ℕ) (rows : List Row)
    (rec : Imovel) (hrec : rec ∈ imoveisFromRows uf n rows) :
    ∃ row ∈ rows, ∃ k, rec = mkImovel k row uf := by
  induction rows generalizing n with
  | nil => simp [imoveisFromRows] at hrec
  | cons r t ih =>
      rcases List.mem_cons.mp hrec with hrec | hrec
      · exact ⟨r, by simp, n, hrec⟩
      · obtain ⟨row, hrow, k, hk⟩ := ih (n + 1) hrec
        exact ⟨row, by simp [hrow], k, hk⟩

/-- C8 amended.  The `uf` field is the row's `UF` value when truthy and
otherwise the requested region code, both taken verbatim with no case
normalization; consequently it is uppercase exactly when the requested
code and the source column are. -/
theorem uf_passthrough (rows : List Row) (r : String)
    (hr : jsToUpper r = r)
    (hrows : ∀ row ∈ rows, ∀ v, rowGet row "UF" = some v → v ≠ "" →
      jsToUpper v = v) :
    ∀ rec ∈ parseImoveisCsv rows r, jsToUpper rec.uf = rec.uf := by
  intro rec hrec
  obtain ⟨row, hrow, k, hk⟩ := mem_imoveisFromRows r 0 rows rec hrec
  subst hk
  show jsToUpper (jsOrD (rowGet row "UF") r) = jsOrD (rowGet row "UF") r
  cases hv : rowGet row "UF" with
  | none => simpa [jsOrD] using hr
  | some v =>
      by_cases hve : v = ""
      · simpa [jsOrD, hve] using hr
      · simpa [jsOrD, hve] using hrows row hrow v hv hve

/-- Witness for the amended C8: uppercase request and uppercase source
column give uppercase `uf` fields. -/
theorem uf_passthrough_witness :
    jsToUpper ((parseImoveisCsv [[("UF", "RJ")], []] "SP").get
        ⟨0, by decide⟩).uf =
      ((parseImoveisCsv [[("UF", "RJ")], []] "SP").get ⟨0, by decide⟩).uf := by
  refine uf_passthrough [[("UF", "RJ")], []] "SP" (by decide) ?_ _
    (List.get_mem _ _ _)
  intro row hrow v hv hne
  fin_cases hrow
  · injection hv with h
    subst h
    decide
  · simp [rowGet] at hv

/-! ## Lemmas about the string primitives -/

theorem mem_digitChars_isDigit (c : Char) (h : c ∈ digitChars) :
    c.isDigit = true := by
  fin_cases h <;> decide

theorem mem_digitChars_not_stripped (c : Char) (h : c ∈ digitChars) :
    isStrippedChar c = false := by
  fin_cases h <;> decide

theorem mem_digitChars_not_ws (c : Char) (h : c ∈ digitChars) :
    jsIsWs c = false := by
  fin_cases h <;> decide

theorem mem_digitChars_ne (c : Char) (h : c ∈ digitChars) (d : Char)
    (hd : d.isDigit = false) : c ≠ d := by
  intro he
  subst he
  rw [mem_digitChars_isDigit c h] at hd
  exact Bool.noConfusion hd

theorem dropWhile_eq_self_of_not (p : Char → Bool) (l : List Char)
    (h : ∀ c ∈ l, p c = false) : l.dropWhile p = l := by
  cases l with
  | nil => rfl
  | cons c t => simp [List.dropWhile, h c (by simp)]

theorem jsTrim_eq_self (l : List Char) (h : ∀ c ∈ l, jsIsWs c = false) :
    jsTrim l = l := by
  unfold jsTrim
  rw [dropWhile_eq_self_of_not _ _ h,
    dropWhile_eq_self_of_not _ _ (fun c hc => h c (List.mem_reverse.mp hc)),
    List.reverse_reverse]

theorem mem_jsTrim (c : Char) (l : List Char) (h : c ∈ jsTrim l) : c ∈ l := by
  unfold jsTrim at h
  rw [List.mem_reverse] at h
  have h1 := (List.dropWhile_sublist jsIsWs).mem h
  rw [List.mem_reverse] at h1
  exact (List.dropWhile_sublist jsIsWs).mem h1

theorem filter_dropWhile (p q : Char → Bool) (l : List Char)
    (h : ∀ c, q c = true → p c = false) :
    (l.dropWhile q).filter p = l.filter p := by
  induction l with
  | nil => rfl
  | cons c t ih =>
      by_cases hq : q c
      · simp [List.dropWhile, hq, ih, List.filter_cons, h c hq]
      · simp [List.dropWhile, hq]

theorem filter_jsTrim (p : Char → Bool) (l : List Char)
    (h : ∀ c, jsIsWs c = true → p c = false) :
    (jsTrim l).filter p = l.filter p := by
  unfold jsTrim
  rw [List.filter_reverse, filter_dropWhile p jsIsWs _ h, List.filter_reverse,
    filter_dropWhile p jsIsWs _ h, List.reverse_reverse]

theorem replaceFirstComma_of_not_mem (l : List Char)
    (h : ∀ c ∈ l, c ≠ ',') : replaceFirstComma l = l := by
  induction l with
  | nil => rfl
  | cons c t ih =>
      simp [replaceFirstComma, h c (by simp),
        ih fun x hx => h x (by simp [hx])]

theorem replaceFirstComma_append (l₁ l₂ : List Char)
    (h : ∀ c ∈ l₁, c ≠ ',') :
    replaceFirstComma (l₁ ++ ',' :: l₂) = l₁ ++ '.' :: l₂ := by
  induction l₁ with
  | nil => simp [replaceFirstComma]
  | cons c t ih =>
      simp [replaceFirstComma, h c (by simp),
        ih fun x hx => h x (by simp [hx])]

theorem mem_replaceFirstComma (c : Char) (l : List Char)
    (h : c ∈ replaceFirstComma l) : c ∈ l ∨ c = '.' := by
  induction l with
  | nil => simp [replaceFirstComma] at h
  | cons a t ih =>
      by_cases ha : a = ','
      · rw [replaceFirstComma, if_pos ha] at h
        rcases List.mem_cons.mp h with h | h
        · exact Or.inr h
        · exact Or.inl (List.mem_cons_of_mem a h)
      · rw [replaceFirstComma, if_neg ha] at h
        rcases List.mem_cons.mp h with h | h
        · exact Or.inl (h ▸ List.mem_cons_self a t)
        · rcases ih h with h | h
          · exact Or.inl (List.mem_cons_of_mem a h)
          · exact Or.inr h

theorem removeFirstDot_eq_filter (l : List Char) (h : l.count '.' ≤ 1) :
    removeFirstDot l = l.filter (fun c => !(c = '.')) := by
  induction l with
  | nil => rfl
  | cons c t ih =>
      by_cases hc : c = '.'
      · subst hc
        have ht : t.count '.' = 0 := by
          rw [List.count_cons] at h
          simpa using h
        have hnone : ∀ x ∈ t, ¬ x = '.' := by
          intro x hx
          exact (List.count_eq_zero.mp ht) ∘ fun he => he ▸ hx
        rw [removeFirstDot, if_pos rfl, List.filter_cons]
        simp only [decide_True, Bool.not_true, if_neg]
        exact (List.filter_eq_self.mpr fun a ha => by
          simpa using hnone a ha).symm
      · have ht : t.count '.' ≤ 1 := by
          rw [List.count_cons] at h
          omega
        rw [removeFirstDot, if_neg hc, List.filter_cons]
        simp [hc, ih ht]

/-! ## Normalizing a Brazilian-formatted string -/

theorem mem_brIntPart (c : Char) (groups : List (List Char))
    (h : c ∈ brIntPart groups) : c = '.' ∨ ∃ g ∈ groups, c ∈ g := by
  induction groups with
  | nil => simp [brIntPart] at h
  | cons g gs ih =>
      cases gs with
      | nil =>
          rw [brIntPart] at h
          exact Or.inr ⟨g, by simp, h⟩
      | cons g2 gs2 =>
          rw [show brIntPart (g :: g2 :: gs2) =
            g ++ '.' :: brIntPart (g2 :: gs2) from rfl] at h
          rcases List.mem_append.mp h with h | h
          · exact Or.inr ⟨g, by simp, h⟩
          · rcases List.mem_cons.mp h with h | h
            · exact Or.inl h
            · rcases ih h with h | ⟨g', hg', hc⟩
              · exact Or.inl h
              · exact Or.inr ⟨g', List.mem_cons_of_mem g hg', hc⟩

theorem brIntPart_ne_nil (groups : List (List Char)) (hne : groups ≠ [])
    (hgne : ∀ g ∈ groups, g ≠ []) : brIntPart groups ≠ [] := by
  cases groups with
  | nil => exact absurd rfl hne
  | cons g gs =>
      cases gs with
      | nil => exact hgne g (by simp)
      | cons g2 gs2 =>
          rw [show brIntPart (g :: g2 :: gs2) =
            g ++ '.' :: brIntPart (g2 :: gs2) from rfl]
          intro h
          rcases List.append_eq_nil.mp h with ⟨h1, h2⟩
          exact List.cons_ne_nil _ _ h2

theorem brIntPart_filter_dots (groups : List (List Char))
    (hg : ∀ g ∈ groups, ∀ c ∈ g, c ∈ digitChars) :
    (brIntPart groups).filter (fun c => !(c = '.')) = groups.flatten := by
  induction groups with
  | nil => rfl
  | cons g gs ih =>
      have hgdig : ∀ c ∈ g, c ∈ digitChars := hg g (by simp)
      have hgkeep : g.filter (fun c => !(c = '.')) = g :=
        List.filter_eq_self.mpr fun c hc => by
          simpa using mem_digitChars_ne c (hgdig c hc) '.' (by decide)
      cases gs with
      | nil => simpa [brIntPart] using hgkeep
      | cons g2 gs2 =>
          rw [show brIntPart (g :: g2 :: gs2) =
            g ++ '.' :: brIntPart (g2 :: gs2) from rfl,
            List.filter_append, hgkeep, List.filter_cons]
          have ih' := ih fun g' hg' => hg g' (List.mem_cons_of_mem g hg')
          simp [ih']

theorem brString_filter_strip (cur : Bool) (groups : List (List Char))
    (frac : Option (List Char))
    (hg : ∀ g ∈ groups, ∀ c ∈ g, c ∈ digitChars)
    (hf : ∀ f, frac = some f → ∀ c ∈ f, c ∈ digitChars) :
    (brString cur groups frac).filter (fun c => !isStrippedChar c) =
      brIntPart groups ++
        (match frac with
         | some f => ',' :: f
         | none => []) := by
  unfold brString
  rw [List.filter_append, List.filter_append]
  have h1 : (if cur then ['R', '$', ' '] else []).filter
      (fun c => !isStrippedChar c) = [] := by
    cases cur <;> rfl
  have h2 : (brIntPart groups).filter (fun c => !isStrippedChar c) =
      brIntPart groups :=
    List.filter_eq_self.mpr fun c hc => by
      rcases mem_brIntPart c groups hc with h | ⟨g, hg', hc'⟩
      · subst h
        decide
      · simp [mem_digitChars_not_stripped c (hg g hg' c hc')]
  have h3 : (match frac with
      | some f => ',' :: f
      | none => ([] : List Char)).filter (fun c => !isStrippedChar c) =
      match frac with
      | some f => ',' :: f
      | none => [] := by
    cases frac with
    | none => rfl
    | some f =>
        refine List.filter_eq_self.mpr fun c hc => ?_
        rcases List.mem_cons.mp hc with h | h
        · subst h
          decide
        · simp [mem_digitChars_not_stripped c (hf f rfl c h)]
  rw [h1, h2, h3]
  rfl

theorem numeroBrNormalize_brString (cur : Bool) (groups : List (List Char))
    (frac : Option (List Char))
    (hg : ∀ g ∈ groups, ∀ c ∈ g, c ∈ digitChars)
    (hf : ∀ f, frac = some f → ∀ c ∈ f, c ∈ digitChars) :
    numeroBrNormalize (String.mk (brString cur groups frac)) =
      groups.flatten ++
        (match frac with
         | some f => '.' :: f
         | none => []) := by
  unfold numeroBrNormalize
  have hdata : (String.mk (brString cur groups frac)).data =
      brString cur groups frac := rfl
  rw [hdata, filter_jsTrim _ _ (fun c hc => by simp [isStrippedChar, hc]),
    brString_filter_strip cur groups frac hg hf, List.filter_append,
    brIntPart_filter_dots groups hg]
  have hnocomma : ∀ c ∈ groups.flatten, c ≠ ',' := by
    intro c hc
    obtain ⟨g, hg', hc'⟩ := List.mem_flatten.mp hc
    exact mem_digitChars_ne c (hg g hg' c hc') ',' (by decide)
  cases frac with
  | none =>
      simpa using replaceFirstComma_of_not_mem _ hnocomma
  | some f =>
      have hfr : (',' :: f).filter (fun c => !(c = '.')) = ',' :: f := by
        refine List.filter_eq_self.mpr fun c hc => ?_
        rcases List.mem_cons.mp hc with h | h
        · subst h
          decide
        · simpa using mem_digitChars_ne c (hf f rfl c h) '.' (by decide)
      rw [hfr]
      exact replaceFirstComma_append _ f hnocomma

/-! ## Evaluating the numeric-literal grammar on digit strings -/

theorem isDigit_ne (c d : Char) (h : c.isDigit = true)
    (hd : d.isDigit = false) : c ≠ d := by
  intro he
  subst he
  rw [h] at hd
  exact Bool.noConfusion hd

theorem takeWhile_eq_self_of_all (p : Char → Bool) (l : List Char)
    (h : ∀ c ∈ l, p c = true) : l.takeWhile p = l := by
  induction l with
  | nil => rfl
  | cons c t ih =>
      simp [List.takeWhile, h c (by simp), ih fun x hx => h x (by simp [hx])]

theorem dropWhile_eq_nil_of_all (p : Char → Bool) (l : List Char)
    (h : ∀ c ∈ l, p c = true) : l.dropWhile p = [] := by
  induction l with
  | nil => rfl
  | cons c t ih =>
      simp [List.dropWhile, h c (by simp), ih fun x hx => h x (by simp [hx])]

theorem takeWhile_append_stop (p : Char → Bool) (l₁ : List Char) (x : Char)
    (l₂ : List Char) (h₁ : ∀ c ∈ l₁, p c = true) (hx : p x = false) :
    (l₁ ++ x :: l₂).takeWhile p = l₁ := by
  induction l₁ with
  | nil => simp [List.takeWhile, hx]
  | cons c t ih =>
      simp [List.takeWhile, h₁ c (by simp),
        ih fun a ha => h₁ a (by simp [ha])]

theorem dropWhile_append_stop (p : Char → Bool) (l₁ : List Char) (x : Char)
    (l₂ : List Char) (h₁ : ∀ c ∈ l₁, p c = true) (hx : p x = false) :
    (l₁ ++ x :: l₂).dropWhile p = x :: l₂ := by
  induction l₁ with
  | nil => simp [List.dropWhile, hx]
  | cons c t ih =>
      simp [List.dropWhile, h₁ c (by simp),
        ih fun a ha => h₁ a (by simp [ha])]

theorem nonDecimalValue_none (l : List Char)
    (h : ∀ c ∈ l, c.isDigit = true ∨ c = '.') : nonDecimalValue l = none := by
  match l with
  | [] => rfl
  | [c] => rfl
  | c0 :: c1 :: rest =>
      have h1 : c1.isDigit = true ∨ c1 = '.' := h c1 (by simp)
      have hx : ¬ (c1 = 'x' ∨ c1 = 'X') := by
        rcases h1 with h1 | h1
        · rintro (rfl | rfl) <;> simp at h1
        · subst h1
          decide
      have ho : ¬ (c1 = 'o' ∨ c1 = 'O') := by
        rcases h1 with h1 | h1
        · rintro (rfl | rfl) <;> simp at h1
        · subst h1
          decide
      have hb : ¬ (c1 = 'b' ∨ c1 = 'B') := by
        rcases h1 with h1 | h1
        · rintro (rfl | rfl) <;> simp at h1
        · subst h1
          decide
      by_cases h0 : c0 = '0'
      · simp [nonDecimalValue, h0, hx, ho, hb]
      · simp [nonDecimalValue, h0]

theorem decOrInf_of_digit_head (c0 : Char) (t : List Char)
    (h0 : c0.isDigit = true) :
    decOrInf (c0 :: t) = (decimalValue (c0 :: t)).map .fin := by
  unfold decOrInf
  rw [if_neg]
  intro he
  have : c0 = 'I' := (List.cons.injEq _ _ _ _ ▸ he).1
  subst this
  simp at h0

theorem decimalValue_digits (d : List Char) (hne : d ≠ [])
    (hd : ∀ c ∈ d, c.isDigit = true) :
    decimalValue d = some ((charDigitsVal d : ℚ)) := by
  unfold decimalValue
  rw [takeWhile_eq_self_of_all _ _ hd, dropWhile_eq_nil_of_all _ _ hd]
  cases d with
  | nil => exact absurd rfl hne
  | cons c t => rfl

theorem decimalValue_digits_dot (d₁ d₂ : List Char) (hne : d₁ ≠ [])
    (h₁ : ∀ c ∈ d₁, c.isDigit = true) (h₂ : ∀ c ∈ d₂, c.isDigit = true) :
    decimalValue (d₁ ++ '.' :: d₂) =
      some ((charDigitsVal d₁ : ℚ) + (charDigitsVal d₂ : ℚ) / 10 ^ d₂.length) := by
  unfold decimalValue
  rw [takeWhile_append_stop _ _ _ _ h₁ (by decide),
    dropWhile_append_stop _ _ _ _ h₁ (by decide)]
  have hip : d₁.isEmpty = false := by
    cases d₁ with
    | nil => exact absurd rfl hne
    | cons c t => rfl
  simp only [takeWhile_eq_self_of_all _ _ h₂, dropWhile_eq_nil_of_all _ _ h₂,
    hip, expTail, Option.map_some', Bool.false_and, Bool.false_eq_true,
    if_false, if_true, if_pos rfl]
  rw [applyExp, if_pos le_rfl]
  norm_num

theorem jsStringToNumber_digits (d : List Char) (hne : d ≠ [])
    (hd : ∀ c ∈ d, c ∈ digitChars) :
    jsStringToNumber d = .fin ((charDigitsVal d : ℚ)) := by
  have hdig : ∀ c ∈ d, c.isDigit = true :=
    fun c hc => mem_digitChars_isDigit c (hd c hc)
  have htrim : jsTrim d = d :=
    jsTrim_eq_self d fun c hc => mem_digitChars_not_ws c (hd c hc)
  obtain ⟨c0, t, rfl⟩ : ∃ c0 t, d = c0 :: t := by
    cases d with
    | nil => exact absurd rfl hne
    | cons c0 t => exact ⟨c0, t, rfl⟩
  have hc0 : c0 ∈ digitChars := hd c0 (by simp)
  simp only [jsStringToNumber, htrim, List.isEmpty_cons, Bool.false_eq_true,
    if_false]
  rw [nonDecimalValue_none _ fun c hc => Or.inl (hdig c hc)]
  rw [if_neg (mem_digitChars_ne c0 hc0 '+' (by decide)),
    if_neg (mem_digitChars_ne c0 hc0 '-' (by decide)),
    decOrInf_of_digit_head c0 t (hdig c0 (by simp)),
    decimalValue_digits _ hne hdig]
  rfl

theorem jsStringToNumber_digits_dot (d₁ d₂ : List Char) (hne : d₁ ≠ [])
    (h₁ : ∀ c ∈ d₁, c ∈ digitChars) (h₂ : ∀ c ∈ d₂, c ∈ digitChars) :
    jsStringToNumber (d₁ ++ '.' :: d₂) =
      .fin ((charDigitsVal d₁ : ℚ) + (charDigitsVal d₂ : ℚ) / 10 ^ d₂.length) := by
  have hdig₁ : ∀ c ∈ d₁, c.isDigit = true :=
    fun c hc => mem_digitChars_isDigit c (h₁ c hc)
  have hdig₂ : ∀ c ∈ d₂, c.isDigit = true :=
    fun c hc => mem_digitChars_isDigit c (h₂ c hc)
  have hmem : ∀ c ∈ d₁ ++ '.' :: d₂, c.isDigit = true ∨ c = '.' := by
    intro c hc
    rcases List.mem_append.mp hc with hc | hc
    · exact Or.inl (hdig₁ c hc)
    · rcases List.mem_cons.mp hc with hc | hc
      · exact Or.inr hc
      · exact Or.inl (hdig₂ c hc)
  have htrim : jsTrim (d₁ ++ '.' :: d₂) = d₁ ++ '.' :: d₂ := by
    refine jsTrim_eq_self _ fun c hc => ?_
    rcases hmem c hc with h | h
    · rcases List.mem_append.mp hc with hc | hc
      · exact mem_digitChars_not_ws c (h₁ c hc)
      · rcases List.mem_cons.mp hc with hc | hc
        · subst hc
          decide
        · exact mem_digitChars_not_ws c (h₂ c hc)
    · subst h
      decide
  obtain ⟨c0, t, rfl⟩ : ∃ c0 t, d₁ = c0 :: t := by
    cases d₁ with
    | nil => exact absurd rfl hne
    | cons c0 t => exact ⟨c0, t, rfl⟩
  have hc0 : c0 ∈ digitChars := h₁ c0 (by simp)
  show jsStringToNumber (c0 :: (t ++ '.' :: d₂)) = _
  have htrim' : jsTrim (c0 :: (t ++ '.' :: d₂)) = c0 :: (t ++ '.' :: d₂) :=
    htrim
  have hmem' : ∀ c ∈ c0 :: (t ++ '.' :: d₂), c.isDigit = true ∨ c = '.' :=
    hmem
  simp only [jsStringToNumber, htrim', List.isEmpty_cons, Bool.false_eq_true,
    if_false]
  rw [nonDecimalValue_none _ hmem']
  rw [if_neg (mem_digitChars_ne c0 hc0 '+' (by decide)),
    if_neg (mem_digitChars_ne c0 hc0 '-' (by decide)),
    decOrInf_of_digit_head c0 _ (mem_digitChars_isDigit c0 hc0)]
  have hdv : decimalValue (c0 :: (t ++ '.' :: d₂)) =
      some ((charDigitsVal (c0 :: t) : ℚ) +
        (charDigitsVal d₂ : ℚ) / 10 ^ d₂.length) :=
    decimalValue_digits_dot (c0 :: t) d₂ (by simp) hdig₁ hdig₂
  rw [hdv]
  rfl

/-! ## C2: the Locale Number Parser -/

theorem parseNumeroBr_brString (cur : Bool) (groups : List (List Char))
    (frac : Option (List Char)) (hgne : groups ≠ [])
    (hgene : ∀ g ∈ groups, g ≠ [])
    (hg : ∀ g ∈ groups, ∀ c ∈ g, c ∈ digitChars)
    (hf : ∀ f, frac = some f → ∀ c ∈ f, c ∈ digitChars) :
    parseNumeroBr (some (String.mk (brString cur groups frac))) =
      .fin (brValue groups frac) := by
  have hbne : brString cur groups frac ≠ [] := by
    have hmid := brIntPart_ne_nil groups hgne hgene
    unfold brString
    intro h
    rcases List.append_eq_nil.mp h with ⟨h1, h2⟩
    rcases List.append_eq_nil.mp h1 with ⟨_, h3⟩
    exact hmid h3
  have hsne : String.mk (brString cur groups frac) ≠ "" := by
    simpa [String.ext_iff] using hbne
  have hflat_d : ∀ c ∈ groups.flatten, c ∈ digitChars := by
    intro c hc
    obtain ⟨g, hg', hc'⟩ := List.mem_flatten.mp hc
    exact hg g hg' c hc'
  have hflat_ne : groups.flatten ≠ [] := by
    cases groups with
    | nil => exact absurd rfl hgne
    | cons g gs =>
        have hgne' : g ≠ [] := hgene g (by simp)
        intro h
        rw [List.flatten_cons] at h
        exact hgne' (List.append_eq_nil.mp h).1
  simp only [parseNumeroBr]
  rw [if_neg hsne, numeroBrNormalize_brString cur groups frac hg hf]
  cases frac with
  | none =>
      rw [show groups.flatten ++
          (match (none : Option (List Char)) with
           | some f => '.' :: f
           | none => ([] : List Char)) = groups.flatten from by simp]
      rw [jsStringToNumber_digits _ hflat_ne hflat_d]
      show JsNumber.fin _ = _
      unfold brValue
      norm_num
  | some f =>
      rw [show groups.flatten ++
          (match (some f : Option (List Char)) with
           | some f => '.' :: f
           | none => ([] : List Char)) = groups.flatten ++ '.' :: f from rfl]
      rw [jsStringToNumber_digits_dot _ f hflat_ne hflat_d (hf f rfl)]
      rfl

/-- C2.  `parseNumeroBr` maps absent and empty input to `0`; on every
Brazilian-formatted numeric string (optional `R$ ` marker, dot-separated
digit groups, optional comma-decimal part) it yields the exact denoted
rational — in particular `"1.234,56" ↦ 1234.56` and `"R$ 900" ↦ 900` — by
stripping whitespace/currency, deleting the thousands dots, turning the
first comma into a dot and applying the numeric-literal grammar; and every
input whose final numeric parse fails yields `0` (the embedding is a total
function, so no exception can escape). -/
theorem parseNumeroBr_contract :
    parseNumeroBr none = .fin 0 ∧
    parseNumeroBr (some "") = .fin 0 ∧
    (∀ (cur : Bool) (groups : List (List Char)) (frac : Option (List Char)),
      groups ≠ [] → (∀ g ∈ groups, g ≠ []) →
      (∀ g ∈ groups, ∀ c ∈ g, c ∈ digitChars) →
      (∀ f, frac = some f → ∀ c ∈ f, c ∈ digitChars) →
      parseNumeroBr (some (String.mk (brString cur groups frac))) =
        .fin (brValue groups frac)) ∧
    parseNumeroBr (some "1.234,56") = .fin (1234.56 : ℚ) ∧
    parseNumeroBr (some "R$ 900") = .fin 900 ∧
    (∀ s : String, jsStringToNumber (numeroBrNormalize s) = .nan →
      parseNumeroBr (some s) = .fin 0) := by
  refine ⟨rfl, rfl, parseNumeroBr_brString, ?_, by decide, ?_⟩
  · have hstr : ("1.234,56" : String) =
        String.mk (brString false [['1'], ['2', '3', '4']]
          (some ['5', '6'])) := rfl
    rw [hstr, parseNumeroBr_brString false [['1'], ['2', '3', '4']]
      (some ['5', '6']) (by decide) (by decide) (by decide)
      (fun f hf => by
        injection hf with h
        subst h
        decide)]
    congr 1
    have hval : brValue [['1'], ['2', '3', '4']] (some ['5', '6']) =
        ((1234 : ℕ) : ℚ) + ((56 : ℕ) : ℚ) / 10 ^ 2 := rfl
    rw [hval]
    norm_num
  · intro s h
    simp only [parseNumeroBr]
    by_cases hs : s = ""
    · rw [if_pos hs]
    · rw [if_neg hs, h]

/-- Witness for C2 on the grouped string `R$ 1.234,56` and on a garbage
input. -/
theorem parseNumeroBr_contract_witness :
    parseNumeroBr
        (some (String.mk (brString true [['1'], ['2', '3', '4']]
          (some ['5', '6'])))) =
      .fin (brValue [['1'], ['2', '3', '4']] (some ['5', '6'])) ∧
    parseNumeroBr (some "abc") = .fin 0 := by
  constructor
  · exact parseNumeroBr_contract.2.2.1 true [['1'], ['2', '3', '4']]
      (some ['5', '6']) (by decide) (by decide) (by decide)
      (fun f hf => by
        injection hf with h
        subst h
        decide)
  · exact parseNumeroBr_contract.2.2.2.2.2 "abc" (by decide)

/-! ## C9: sign behaviour of the Locale Number Parser -/

theorem applyExp_nonneg (q : ℚ) (e : ℤ) (h : 0 ≤ q) : 0 ≤ applyExp q e := by
  unfold applyExp
  split_ifs
  · exact mul_nonneg h (pow_nonneg (by norm_num) _)
  · exact div_nonneg h (pow_nonneg (by norm_num) _)

theorem decimalValue_nonneg (l : List Char) (q : ℚ)
    (h : decimalValue l = some q) : 0 ≤ q := by
  simp only [decimalValue] at h
  split at h
  · split at h
    · exact Option.noConfusion h
    · obtain rfl : _ = q := Option.some.injEq _ _ ▸ h
      positivity
  · split at h
    · split at h
      · exact Option.noConfusion h
      · obtain ⟨e, _, hq⟩ := Option.map_eq_some'.mp h
        subst hq
        refine applyExp_nonneg _ _ ?_
        positivity
    · split at h
      · split at h
        · exact Option.noConfusion h
        · obtain ⟨e, _, hq⟩ := Option.map_eq_some'.mp h
          subst hq
          refine applyExp_nonneg _ _ ?_
          positivity
      · exact Option.noConfusion h

theorem radixParse_nonneg (isD : Char → Bool) (radix : ℕ) (dv : Char → ℕ)
    (l : List Char) (q : ℚ) (h : radixParse isD radix dv l = some q) :
    0 ≤ q := by
  unfold radixParse at h
  split at h
  · exact Option.noConfusion h
  · split at h
    · obtain rfl : _ = q := Option.some.injEq _ _ ▸ h
      positivity
    · exact Option.noConfusion h

theorem nonDecimalValue_nonneg (l : List Char) (q : ℚ)
    (h : nonDecimalValue l = some q) : 0 ≤ q := by
  unfold nonDecimalValue at h
  split at h
  · split at h
    · split at h
      · exact radixParse_nonneg _ _ _ _ _ h
      · split at h
        · exact radixParse_nonneg _ _ _ _ _ h
        · split at h
          · exact radixParse_nonneg _ _ _ _ _ h
          · exact Option.noConfusion h
    · exact Option.noConfusion h
  · exact Option.noConfusion h

theorem decOrInf_fin_nonneg (l : List Char) (q : ℚ)
    (h : decOrInf l = some (.fin q)) : 0 ≤ q := by
  unfold decOrInf at h
  split at h
  · exact absurd (Option.some.injEq _ _ ▸ h) (by simp)
  · obtain ⟨a, ha, hq⟩ := Option.map_eq_some'.mp h
    simp only [JsUnsigned.fin.injEq] at hq
    exact hq ▸ decimalValue_nonneg l a ha

theorem jsStringToNumber_no_minus (l : List Char) (h : '-' ∉ l) :
    jsStringToNumber l = .nan ∨ (jsStringToNumber l).isNonnegB = true := by
  simp only [jsStringToNumber]
  split
  · right
    decide
  · split
    · rename_i q hnd
      right
      simp [JsNumber.isNonnegB, nonDecimalValue_nonneg _ _ hnd]
    · split
      · exact Or.inl rfl
      · rename_i c r htl
        have hcmem : c ∈ l := mem_jsTrim c l (htl ▸ List.mem_cons_self c r)
        have hcm : ¬ c = '-' := fun he => h (he ▸ hcmem)
        by_cases hcp : c = '+'
        · rw [if_pos hcp]
          split
          · exact Or.inr rfl
          · rename_i q hdo
            right
            simp [JsNumber.isNonnegB, decOrInf_fin_nonneg _ _ hdo]
          · exact Or.inl rfl
        · rw [if_neg hcp, if_neg hcm]
          split
          · exact Or.inr rfl
          · rename_i q hdo
            right
            simp [JsNumber.isNonnegB, decOrInf_fin_nonneg _ _ hdo]
          · exact Or.inl rfl

/-- Counterexample to C9 as stated: `parseNumeroBr` forwards a leading
minus sign, so `"-5"` yields the negative value `-5`. -/
theorem parseNumeroBr_negative_counterexample :
    parseNumeroBr (some "-5") = .fin (-5) ∧ (-5 : ℚ) < 0 ∧
      (parseNumeroBr (some "-5")).isNonnegB = false := by decide

/-- C9 amended.  `parseNumeroBr` never yields a negative value for an
input containing no minus sign — which covers every currency-formatted
source cell — but an input with a leading minus does yield a negative
value, so nonnegativity of `valor`/`area` is not validated against the
source sign. -/
theorem parseNumeroBr_nonneg (s : String) (h : '-' ∉ s.data) :
    (parseNumeroBr (some s)).isNonnegB = true := by
  simp only [parseNumeroBr]
  by_cases hs : s = ""
  · rw [if_pos hs]
    decide
  · rw [if_neg hs]
    have hnm : '-' ∉ numeroBrNormalize s := by
      intro hmem
      rcases mem_replaceFirstComma _ _ hmem with hmem | hmem
      · have h1 := List.mem_filter.mp hmem
        have h2 := List.mem_filter.mp h1.1
        exact h (mem_jsTrim _ _ h2.1)
      · exact absurd hmem (by decide)
    rcases jsStringToNumber_no_minus _ hnm with hcase | hcase
    · rw [hcase]
      decide
    · cases hval : jsStringToNumber (numeroBrNormalize s) with
      | nan => decide
      | posInf => rfl
      | negInf => rw [hval] at hcase; exact absurd hcase (by decide)
      | fin q => rw [hval] at hcase; exact hcase

/-- Witness for the amended C9 at a minus-free formatted input. -/
theorem parseNumeroBr_nonneg_witness :
    (parseNumeroBr (some "1.234,56")).isNonnegB = true :=
  parseNumeroBr_nonneg "1.234,56" (by decide)

/-! ## C7: the revisions are not numerically equivalent -/

/-- Counterexample to C7: on `"R$ 900"` the `index.js` inline
normalization (which strips no currency markers, removes only the first
dot, and keeps `NaN`) yields `NaN`, while `parseNumeroBr` yields `900`. -/
theorem inlineNumber_ne_parseNumeroBr_counterexample :
    inlineNumber (some "R$ 900") = .nan ∧
    parseNumeroBr (some "R$ 900") = .fin 900 ∧
    inlineNumber (some "R$ 900") ≠ parseNumeroBr (some "R$ 900") := by
  decide

/-- C7 amended.  The two normalizations agree only on inputs that contain
no currency marker or whitespace, contain at most one dot, and parse to a
number after the rewrite; on such inputs (and on empty input) the inline
`Number(x.replace('.', '').replace(',', '.'))` equals `parseNumeroBr`,
but in general the revisions differ. -/
theorem inlineNumber_eq_parseNumeroBr (s : String)
    (hclean : ∀ c ∈ s.data, isStrippedChar c = false)
    (hdots : s.data.count '.' ≤ 1)
    (hok : jsStringToNumber (replaceFirstComma (removeFirstDot s.data)) ≠
      .nan) :
    inlineNumber (some s) = parseNumeroBr (some s) := by
  by_cases hs : s = ""
  · subst hs
    decide
  · have hor : jsOrD (some s) "0" = s := by simp [jsOrD, hs]
    have hnorm : numeroBrNormalize s =
        replaceFirstComma (removeFirstDot s.data) := by
      unfold numeroBrNormalize
      rw [filter_jsTrim _ _ (fun c hc => by simp [isStrippedChar, hc])]
      have h1 : s.data.filter (fun c => !isStrippedChar c) = s.data :=
        List.filter_eq_self.mpr fun c hc => by simp [hclean c hc]
      rw [h1, ← removeFirstDot_eq_filter s.data hdots]
    unfold inlineNumber
    rw [hor]
    simp only [parseNumeroBr]
    rw [if_neg hs, hnorm]
    cases hval : jsStringToNumber (replaceFirstComma (removeFirstDot s.data))
      with
    | nan => exact absurd hval hok
    | posInf => rfl
    | negInf => rfl
    | fin q => rfl

/-- Witness for the amended C7 at the clean input `"1.234,56"`. -/
theorem inlineNumber_eq_parseNumeroBr_witness :
    inlineNumber (some "1.234,56") = parseNumeroBr (some "1.234,56") :=
  inlineNumber_eq_parseNumeroBr "1.234,56" (by decide) (by decide)
    (by decide)

end ArremateCerto
